import Mathlib

/-!
Verification of the repetition scheduling engine of the Ebinhauzer bot.

Datetimes are modelled as local wall-clock values in the timezone of the
user.  The Python code first localizes every datetime into the timezone
of the user and from then on performs only wall-clock arithmetic
(timedelta addition, replace of the hour, date extraction, combine with a
fixed time of day).  Within one fixed-offset timezone, comparison of two
aware datetimes coincides with wall-clock comparison, so a pair of a day
index and a minute of day is a faithful shallow embedding.  The timezone
resolution itself (ZoneInfo with a pytz fallback) only chooses the offset
and is not modelled.
-/

/-- A local wall-clock instant: calendar day index and minute of day.
Values produced by the code always keep the minute below 1440. -/
structure LocalDT where
  day : Int
  minute : Nat
deriving DecidableEq

/-- Total number of minutes from day 0, used to compare instants. -/
def LocalDT.toAbs (t : LocalDT) : Int :=
  t.day * 1440 + t.minute

/-- Wall-clock addition of minutes, carrying into the day (Python
timedelta addition on an aware datetime is wall-clock). -/
def LocalDT.addMinutes (t : LocalDT) (m : Nat) : LocalDT :=
  ⟨t.day + ((t.minute + m) / 1440 : Nat), (t.minute + m) % 1440⟩

/-- Embedding of calculate_next_repetition from app/utils/ebbinghaus.py.
The stage dispatch is the if/elif chain of the source; the final branch
is the bare else of the source and therefore also catches stages outside
0..7.  1200 is minute of day for 20:00, 420 for 07:00. -/
def calculate_next_repetition (created_at : LocalDT) (current_stage : Int)
    (last_success_at : Option LocalDT) : LocalDT × Int :=
  if current_stage = 0 then
    (created_at.addMinutes 20, 1)
  else if current_stage = 1 then
    let at2000 : LocalDT := ⟨created_at.day, 1200⟩
    if at2000.toAbs ≤ created_at.toAbs then (⟨created_at.day + 1, 1200⟩, 2)
    else (at2000, 2)
  else if current_stage = 2 then (⟨created_at.day + 1, 420⟩, 3)
  else if current_stage = 3 then (⟨created_at.day + 3, 420⟩, 4)
  else if current_stage = 4 then (⟨created_at.day + 7, 420⟩, 5)
  else if current_stage = 5 then (⟨created_at.day + 14, 420⟩, 6)
  else if current_stage = 6 then (⟨created_at.day + 30, 420⟩, 7)
  else
    let base := last_success_at.getD created_at
    (⟨base.day + 30, 420⟩, 8)

/-- Embedding of calculate_failed_repetition from app/utils/ebbinghaus.py. -/
def calculate_failed_repetition (failed_at : LocalDT) (current_stage : Int) :
    LocalDT × Int :=
  let new_stage := max 0 (current_stage - 1)
  (⟨failed_at.day + 1, 420⟩, new_stage)

/-- Python dict.get with a default value, over an association list. -/
def dict_get : List (Int × String) → Int → String → String
  | [], _, dflt => dflt
  | p :: rest, k, dflt => if k = p.1 then p.2 else dict_get rest k dflt

/-- The stage to name dictionary of get_stage_name. -/
def stage_names : List (Int × String) :=
  [(0, "immediate"), (1, "short_term"), (2, "evening"), (3, "day_1"),
   (4, "day_3"), (5, "day_7"), (6, "day_14"), (7, "day_30"), (8, "monthly")]

/-- Embedding of get_stage_name from app/utils/ebbinghaus.py. -/
def get_stage_name (stage : Int) : String :=
  if stage ≥ 8 then "monthly"
  else dict_get stage_names stage ("unknown")

/-- The stage to description dictionary of get_stage_description. -/
def stage_descriptions : List (Int × String) :=
  [(0, "Сразу"), (1, "Через 20 минут"), (2, "Вечером в 20:00"),
   (3, "Завтра в 07:00"), (4, "Через 3 дня в 07:00"), (5, "Через 7 дней в 07:00"),
   (6, "Через 14 дней в 07:00"), (7, "Через 30 дней в 07:00"),
   (8, "Раз в месяц в 07:00")]

/-- Embedding of get_stage_description from app/utils/ebbinghaus.py. -/
def get_stage_description (stage : Int) : String :=
  if stage ≥ 8 then "Раз в месяц в 07:00"
  else dict_get stage_descriptions stage ("Неизвестная стадия")

/-- The nine valid repetition kinds, read off the stage table. -/
def valid_kinds : List String :=
  stage_names.map Prod.snd

/-- Transition table of the specification, written independently of the
source: the next stage is the current stage plus one clamped at 8, and
the due instant for stages 2 to 6 is looked up in a gap table. -/
def computeNextSpec (created_at : LocalDT) (s : Int)
    (last_success_at : Option LocalDT) : LocalDT × Int :=
  let next_stage : Int := min (s + 1) 8
  if s = 0 then (created_at.addMinutes 20, next_stage)
  else if s = 1 then
    let evening : LocalDT := ⟨created_at.day, 1200⟩
    (if evening.toAbs ≤ created_at.toAbs then ⟨created_at.day + 1, 1200⟩ else evening,
     next_stage)
  else if 2 ≤ s ∧ s ≤ 6 then
    let gaps : List Int := [1, 3, 7, 14, 30]
    (⟨created_at.day + gaps.getD (s - 2).toNat 0, 420⟩, next_stage)
  else
    (⟨(last_success_at.getD created_at).day + 30, 420⟩, 8)

/-- C1: for every stage s with 0 ≤ s ≤ 7, calculate_next_repetition agrees
with the transition table of the specification and advances the stage by
exactly one: stage 0 gives createdAt plus 20 minutes, stage 1 gives today
at 20:00 local rolled to tomorrow 20:00 whenever that instant is not
after createdAt, stages 2 to 6 give the date of createdAt plus 1, 3, 7,
14 and 30 days at 07:00 local, and stage 7 gives the base date (the last
success if provided, else createdAt) plus 30 days at 07:00 local. -/
theorem calculate_next_repetition_matches_table (c : LocalDT) (ls : Option LocalDT)
    (s : Int) (h0 : 0 ≤ s) (h7 : s ≤ 7) :
    calculate_next_repetition c s ls = computeNextSpec c s ls ∧
    (calculate_next_repetition c s ls).2 = s + 1 := by
  have hcase : s = 0 ∨ s = 1 ∨ s = 2 ∨ s = 3 ∨ s = 4 ∨ s = 5 ∨ s = 6 ∨ s = 7 := by
    omega
  rcases hcase with h | h | h | h | h | h | h | h <;> subst h <;>
    refine ⟨?_, ?_⟩ <;>
    simp [calculate_next_repetition, computeNextSpec] <;>
    split <;> rfl

/-- Witness for C1 at stage 3 and a concrete creation instant. -/
theorem calculate_next_repetition_matches_table_witness :
    (0 : Int) ≤ 3 ∧ (3 : Int) ≤ 7 ∧
    (calculate_next_repetition ⟨0, 600⟩ 3 none = computeNextSpec ⟨0, 600⟩ 3 none ∧
     (calculate_next_repetition ⟨0, 600⟩ 3 none).2 = 3 + 1) :=
  ⟨by decide, by decide,
   calculate_next_repetition_matches_table ⟨0, 600⟩ none 3 (by decide) (by decide)⟩

/-- C2: for every stage s ≥ 7 the result stage is the clamped value 8 and
the due instant is the base date (last success if provided, otherwise the
creation instant) plus 30 days at 07:00 local; in particular stage 7 and
stage 8 yield exactly the same result, so the monthly interval never
compresses under repeated success. -/
theorem calculate_next_repetition_monthly_clamp (c : LocalDT) (ls : Option LocalDT)
    (s : Int) (h : 7 ≤ s) :
    calculate_next_repetition c s ls = (⟨(ls.getD c).day + 30, 420⟩, 8) ∧
    calculate_next_repetition c 7 ls = calculate_next_repetition c 8 ls := by
  constructor
  · unfold calculate_next_repetition
    repeat rw [if_neg (by omega)]
  · simp [calculate_next_repetition]

/-- Witness for C2 at stage 9 with a last-success instant. -/
theorem calculate_next_repetition_monthly_clamp_witness :
    (7 : Int) ≤ 9 ∧
    (calculate_next_repetition ⟨0, 600⟩ 9 (some ⟨40, 500⟩) =
      (⟨((some (⟨40, 500⟩ : LocalDT)).getD ⟨0, 600⟩).day + 30, 420⟩, 8) ∧
     calculate_next_repetition ⟨0, 600⟩ 7 (some ⟨40, 500⟩) =
      calculate_next_repetition ⟨0, 600⟩ 8 (some ⟨40, 500⟩)) :=
  ⟨by decide,
   calculate_next_repetition_monthly_clamp ⟨0, 600⟩ (some ⟨40, 500⟩) 9 (by decide)⟩

/-- C3: for every stage and every failure instant, the rolled-back stage
is max 0 (s - 1), which is never negative, and the due instant is the
date of the failure plus one day at 07:00 local, independent of which
stage failed. -/
theorem calculate_failed_repetition_rollback (f : LocalDT) (s t : Int) :
    (calculate_failed_repetition f s).2 = max 0 (s - 1) ∧
    0 ≤ (calculate_failed_repetition f s).2 ∧
    (calculate_failed_repetition f s).1 = ⟨f.day + 1, 420⟩ ∧
    (calculate_failed_repetition f s).1 = (calculate_failed_repetition f t).1 := by
  refine ⟨rfl, ?_, rfl, rfl⟩
  simp [calculate_failed_repetition]

/-- C10: for every negative stage both lookups return their sentinel
values (the name lookup returns unknown, the description lookup returns
the Russian phrase for unknown stage), and the returned name is none of
the nine valid kinds. -/
theorem stage_lookups_sentinel_on_negative (s : Int) (h : s < 0) :
    get_stage_name s = "unknown" ∧
    get_stage_description s = "Неизвестная стадия" ∧
    get_stage_name s ∉ valid_kinds := by
  have h8 : ¬ s ≥ 8 := by omega
  have hname : get_stage_name s = "unknown" := by
    simp only [get_stage_name, if_neg h8, stage_names, dict_get]
    repeat rw [if_neg (by omega)]
  have hdesc : get_stage_description s = "Неизвестная стадия" := by
    simp only [get_stage_description, if_neg h8, stage_descriptions, dict_get]
    repeat rw [if_neg (by omega)]
  refine ⟨hname, hdesc, ?_⟩
  rw [hname]
  decide

/-- Witness for C10 at stage minus one. -/
theorem stage_lookups_sentinel_on_negative_witness :
    (-1 : Int) < 0 ∧
    (get_stage_name (-1) = "unknown" ∧
     get_stage_description (-1) = "Неизвестная стадия" ∧
     get_stage_name (-1) ∉ valid_kinds) :=
  ⟨by decide, stage_lookups_sentinel_on_negative (-1) (by decide)⟩

/-!
Shallow embedding of the stateful schedule service
(app/services/schedule_service.py together with the statistics updater of
app/services/material_service.py).  The database session is modelled as
an explicit store value; every SQLAlchemy commit appends a snapshot of
the store to a commit trace, so the persisted intermediate states of an
operation are exactly the members of the returned trace.  ORM rows are
record values; an UPDATE of the single row returned by a primary-key
select is modelled by replacing the first matching record, and a DELETE
by filtering.  Autoincrement row ids come from a next id counter.  The
clock is passed in as one instant per call (the repeated datetime.utcnow
calls inside one request are not distinguished) and the timezone lookup
of the user is not modelled, as explained for LocalDT above.
-/

/-- A RepetitionSchedule row of app/database/models.py. -/
structure RepetitionSchedule where
  id : Int
  material_id : Int
  user_id : Int
  scheduled_date : Int
  repetition_type : String
  current_stage : Int
  scheduled_datetime : LocalDT
  is_completed : Bool
  completed_at : Option LocalDT
  created_at : LocalDT
deriving DecidableEq

/-- A RepetitionResult row of app/database/models.py. -/
structure RepetitionResult where
  schedule_id : Int
  user_id : Int
  material_id : Int
  was_successful : Bool
  completed_at : LocalDT
deriving DecidableEq

/-- A StudyMaterial row of app/database/models.py (the fields the engine
touches). -/
structure StudyMaterial where
  id : Int
  user_id : Int
  created_at : LocalDT
  current_stage : Int
  last_success_at : Option LocalDT
deriving DecidableEq

/-- A UserStatistics row of app/database/models.py. -/
structure UserStatistics where
  user_id : Int
  date : Int
  total_materials_added : Int
  successful_repetitions : Int
  failed_repetitions : Int
deriving DecidableEq

/-- The database tables reachable from the schedule service. -/
structure Store where
  schedules : List RepetitionSchedule
  results : List RepetitionResult
  materials : List StudyMaterial
  stats : List UserStatistics
  next_id : Int
deriving DecidableEq

/-- First element satisfying a decidable predicate (scalar_one_or_none of
a select whose condition is the predicate). -/
def findFirst? {α : Type} (p : α → Prop) [DecidablePred p] : List α → Option α
  | [] => none
  | x :: xs => if p x then some x else findFirst? p xs

/-- Replace the first element satisfying the predicate (an UPDATE of the
row returned by such a select). -/
def replaceFirst {α : Type} (p : α → Prop) [DecidablePred p] (f : α → α) :
    List α → List α
  | [] => []
  | x :: xs => if p x then f x :: xs else x :: replaceFirst p f xs

/-- Keep the elements satisfying a decidable predicate. -/
def filterP {α : Type} (p : α → Prop) [DecidablePred p] : List α → List α
  | [] => []
  | x :: xs => if p x then x :: filterP p xs else filterP p xs

/-- Where clause of the select in complete_repetition: row id, owner and
not yet completed. -/
def matchesPending (schedule_id user_id : Int) (s : RepetitionSchedule) : Prop :=
  s.id = schedule_id ∧ s.user_id = user_id ∧ s.is_completed = false

instance (a b : Int) (s : RepetitionSchedule) : Decidable (matchesPending a b s) :=
  decidable_of_iff (s.id = a ∧ s.user_id = b ∧ s.is_completed = false) Iff.rfl

/-- Where clause of delete incomplete repetitions: owner, material and
not yet completed. -/
def incompleteFor (user_id material_id : Int) (s : RepetitionSchedule) : Prop :=
  s.user_id = user_id ∧ s.material_id = material_id ∧ s.is_completed = false

instance (a b : Int) (s : RepetitionSchedule) : Decidable (incompleteFor a b s) :=
  decidable_of_iff (s.user_id = a ∧ s.material_id = b ∧ s.is_completed = false) Iff.rfl

/-- Embedding of MaterialService update_user_statistics: find or create
the statistics row of the user for today, bump its counters, commit. -/
def update_user_statistics (today user_id added succ failed : Int) (st : Store) :
    Store × List Store :=
  let bump : UserStatistics → UserStatistics := fun r =>
    { r with
      total_materials_added := r.total_materials_added + added,
      successful_repetitions := r.successful_repetitions + succ,
      failed_repetitions := r.failed_repetitions + failed }
  let st' :=
    match findFirst? (fun r => r.user_id = user_id ∧ r.date = today) st.stats with
    | none =>
        { st with stats := st.stats ++ [⟨user_id, today, added, succ, failed⟩] }
    | some _ =>
        { st with stats :=
            replaceFirst (fun r => r.user_id = user_id ∧ r.date = today) bump st.stats }
  (st', [st'])

/-- Embedding of create_next_repetition_on_success: look the material up,
set its last success and bump its stage by one without clamping, compute
the next repetition from the entry stage, delete the incomplete entries
of the material and insert the new one, then commit. -/
def create_next_repetition_on_success (now : LocalDT) (cs : RepetitionSchedule)
    (st : Store) : Option RepetitionSchedule × Store × List Store :=
  match findFirst? (fun m => m.id = cs.material_id) st.materials with
  | none => (none, st, [])
  | some material =>
    let new_stage := cs.current_stage + 1
    let materials1 :=
      replaceFirst (fun m => m.id = cs.material_id)
        (fun m => { m with last_success_at := some now, current_stage := new_stage })
        st.materials
    let st1 := { st with materials := materials1 }
    let nd := calculate_next_repetition material.created_at cs.current_stage (some now)
    let next_type := get_stage_name nd.2
    let schedules2 :=
      filterP (fun s => ¬ incompleteFor cs.user_id cs.material_id s) st1.schedules
    let st2 := { st1 with schedules := schedules2 }
    let next_schedule : RepetitionSchedule :=
      ⟨st2.next_id, cs.material_id, cs.user_id, nd.1.day, next_type, nd.2,
       nd.1, false, none, now⟩
    let st3 := { st2 with
      schedules := st2.schedules ++ [next_schedule], next_id := st2.next_id + 1 }
    (some next_schedule, st3, [st3])

/-- Embedding of mark_failed: look the material up by id, compute the
rollback from the material stage, delete the incomplete entries of the
material, insert the rollback entry, set the material stage, update the
statistics (which commits) and commit. -/
def mark_failed (now : LocalDT) (today : Int) (user_id material_id : Int)
    (failed_at : Option LocalDT) (st : Store) : Bool × Store × List Store :=
  let fa := failed_at.getD now
  match findFirst? (fun m => m.id = material_id) st.materials with
  | none => (false, st, [])
  | some material =>
    let fr := calculate_failed_repetition fa material.current_stage
    let schedules1 :=
      filterP (fun s => ¬ incompleteFor user_id material_id s) st.schedules
    let st1 := { st with schedules := schedules1 }
    let new_schedule : RepetitionSchedule :=
      ⟨st1.next_id, material_id, user_id, fr.1.day, get_stage_name fr.2, fr.2,
       fr.1, false, none, now⟩
    let st2 := { st1 with
      schedules := st1.schedules ++ [new_schedule], next_id := st1.next_id + 1 }
    let materials3 :=
      replaceFirst (fun m => m.id = material_id)
        (fun m => { m with current_stage := fr.2 }) st2.materials
    let st3 := { st2 with materials := materials3 }
    let sp := update_user_statistics today user_id 0 0 1 st3
    (true, sp.1, sp.2 ++ [sp.1])

/-- Embedding of complete_repetition: select the incomplete entry by id
and owner; when absent return False without touching the store; else mark
it completed, insert the result row, update the statistics (which
commits), commit, and create the follow-up entry through the success or
failure path, each of which commits again. -/
def complete_repetition (now : LocalDT) (today : Int) (schedule_id user_id : Int)
    (was_successful : Bool) (st : Store) : Bool × Store × List Store :=
  match findFirst? (matchesPending schedule_id user_id) st.schedules with
  | none => (false, st, [])
  | some schedule =>
    let schedules1 :=
      replaceFirst (matchesPending schedule_id user_id)
        (fun s => { s with is_completed := true, completed_at := some now })
        st.schedules
    let st1 := { st with schedules := schedules1 }
    let result_record : RepetitionResult :=
      ⟨schedule_id, user_id, schedule.material_id, was_successful, now⟩
    let st2 := { st1 with results := st1.results ++ [result_record] }
    let sp :=
      if was_successful then update_user_statistics today user_id 0 1 0 st2
      else update_user_statistics today user_id 0 0 1 st2
    let completed := { schedule with is_completed := true, completed_at := some now }
    if was_successful then
      let nx := create_next_repetition_on_success now completed sp.1
      (true, nx.2.1, sp.2 ++ [sp.1] ++ nx.2.2)
    else
      let nx := mark_failed now today completed.user_id completed.material_id
        completed.completed_at sp.1
      (true, nx.2.1, sp.2 ++ [sp.1] ++ nx.2.2)

/-- Embedding of create_initial_repetitions: delete the incomplete
entries of the material, insert the three intraday entries (stage 0 due
at the creation instant, stage 1 due twenty minutes later via the
calculator, stage 2 due in the evening via the calculator) and commit. -/
def create_initial_repetitions (now : LocalDT) (material_id user_id : Int)
    (material_created_at : LocalDT) (st : Store) :
    List RepetitionSchedule × Store × List Store :=
  let schedules1 :=
    filterP (fun s => ¬ incompleteFor user_id material_id s) st.schedules
  let st1 := { st with schedules := schedules1 }
  let nd0 := calculate_next_repetition material_created_at 0 none
  let nd1 := calculate_next_repetition material_created_at 1 none
  let immediate : RepetitionSchedule :=
    ⟨st1.next_id, material_id, user_id, material_created_at.day, "immediate", 0,
     material_created_at, false, none, now⟩
  let short_term : RepetitionSchedule :=
    ⟨st1.next_id + 1, material_id, user_id, nd0.1.day, "short_term", 1,
     nd0.1, false, none, now⟩
  let evening : RepetitionSchedule :=
    ⟨st1.next_id + 2, material_id, user_id, nd1.1.day, "evening", 2,
     nd1.1, false, none, now⟩
  let items := [immediate, short_term, evening]
  let st2 := { st1 with
    schedules := st1.schedules ++ items, next_id := st1.next_id + 3 }
  (items, st2, [st2])

/-- The intraday repetition kinds of the due query. -/
def intraday_types : List String :=
  ["immediate", "short_term", "evening"]

/-- The long-horizon repetition kinds of the due query. -/
def long_horizon_types : List String :=
  ["day_1", "day_3", "day_7", "day_14", "day_30", "monthly"]

/-- Where clause of the select in get_due_repetitions: incomplete, and
either an intraday kind scheduled exactly on the target date or a
long-horizon kind scheduled on or before it. -/
def isDue (target_date : Int) (s : RepetitionSchedule) : Prop :=
  s.is_completed = false ∧
    ((s.repetition_type ∈ intraday_types ∧ s.scheduled_date = target_date) ∨
     (s.repetition_type ∈ long_horizon_types ∧ s.scheduled_date ≤ target_date))

instance (d : Int) (s : RepetitionSchedule) : Decidable (isDue d s) :=
  decidable_of_iff
    (s.is_completed = false ∧
      ((s.repetition_type ∈ intraday_types ∧ s.scheduled_date = d) ∨
       (s.repetition_type ∈ long_horizon_types ∧ s.scheduled_date ≤ d)))
    Iff.rfl

/-- The user filter of get_due_repetitions.  The source guards the extra
where clause with Python truthiness, so passing user id 0 disables the
filter exactly like passing None. -/
def passes_user_filter (user_id : Option Int) (s : RepetitionSchedule) : Prop :=
  match user_id with
  | none => True
  | some u => u = 0 ∨ s.user_id = u

instance (u : Option Int) (s : RepetitionSchedule) :
    Decidable (passes_user_filter u s) :=
  match u with
  | none => isTrue trivial
  | some v => decidable_of_iff (v = 0 ∨ s.user_id = v) Iff.rfl

/-- The order-by clause of get_due_repetitions: scheduled date, then
stage, then creation time. -/
def dueOrder (a b : RepetitionSchedule) : Prop :=
  a.scheduled_date < b.scheduled_date ∨
    (a.scheduled_date = b.scheduled_date ∧
      (a.current_stage < b.current_stage ∨
        (a.current_stage = b.current_stage ∧
          a.created_at.toAbs ≤ b.created_at.toAbs)))

instance : DecidableRel dueOrder := fun a b =>
  decidable_of_iff
    (a.scheduled_date < b.scheduled_date ∨
      (a.scheduled_date = b.scheduled_date ∧
        (a.current_stage < b.current_stage ∨
          (a.current_stage = b.current_stage ∧
            a.created_at.toAbs ≤ b.created_at.toAbs))))
    Iff.rfl

instance : IsTotal RepetitionSchedule dueOrder :=
  ⟨by intro a b; unfold dueOrder; omega⟩

instance : IsTrans RepetitionSchedule dueOrder :=
  ⟨by intro a b c hab hbc; unfold dueOrder at hab hbc ⊢; omega⟩

/-- The duplicate guard of get_due_repetitions: walk the ordered rows and
keep a row only when its material was not seen before. -/
def dedupByMaterial : List RepetitionSchedule → List Int → List RepetitionSchedule
  | [], _ => []
  | r :: rest, seen =>
    if r.material_id ∈ seen then dedupByMaterial rest seen
    else r :: dedupByMaterial rest (r.material_id :: seen)

/-- Embedding of get_due_repetitions: filter, order deterministically by
the order-by key (a stable sort), then drop duplicate materials keeping
the first seen row. -/
def get_due_repetitions (user_id : Option Int) (target_date : Int) (st : Store) :
    List RepetitionSchedule :=
  let base := filterP
    (fun s => isDue target_date s ∧ passes_user_filter user_id s) st.schedules
  dedupByMaterial (List.insertionSort dueOrder base) []

/-- Where clause of the select in the expiry sweeper: incomplete intraday
entry from a past day. -/
def is_expired_intraday (today : Int) (s : RepetitionSchedule) : Prop :=
  s.scheduled_date < today ∧ s.is_completed = false ∧
    s.repetition_type ∈ intraday_types

instance (d : Int) (s : RepetitionSchedule) : Decidable (is_expired_intraday d s) :=
  decidable_of_iff
    (s.scheduled_date < d ∧ s.is_completed = false ∧
      s.repetition_type ∈ intraday_types)
    Iff.rfl

/-- Embedding of auto_complete_expired_intraday_repetitions: select the
expired intraday rows once, then mark each selected ORM object completed,
append a failed result row for it and bump the failure statistics of its
owner.  Since the loop mutates the selected objects in place, its net
effect on the table is a pointwise update of exactly the selected rows.
The commit trace is not returned here because no claim concerns the
transaction boundaries of the sweeper. -/
def auto_complete_expired_intraday_repetitions (now : LocalDT) (today : Int)
    (st : Store) : Int × Store :=
  let expired := filterP (is_expired_intraday today) st.schedules
  let schedules1 := st.schedules.map (fun s =>
    if is_expired_intraday today s then
      { s with is_completed := true, completed_at := some now }
    else s)
  let results1 := st.results ++ expired.map (fun s =>
    (⟨s.id, s.user_id, s.material_id, false, now⟩ : RepetitionResult))
  let st1 := { st with schedules := schedules1, results := results1 }
  let st2 := expired.foldl
    (fun acc s => (update_user_statistics today s.user_id 0 0 1 acc).1) st1
  (expired.length, st2)

/-! Basic lemmas about the list combinators of the store model. -/

theorem findFirst?_eq_some {α : Type} {p : α → Prop} [DecidablePred p]
    {l : List α} {e : α} (h : findFirst? p l = some e) : e ∈ l ∧ p e := by
  induction l with
  | nil => simp [findFirst?] at h
  | cons x xs ih =>
    by_cases hx : p x
    · simp [findFirst?, hx] at h
      subst h
      exact ⟨List.mem_cons_self x xs, hx⟩
    · simp [findFirst?, hx] at h
      rcases ih h with ⟨hm, hp⟩
      exact ⟨List.mem_cons_of_mem x hm, hp⟩

theorem findFirst?_eq_none {α : Type} {p : α → Prop} [DecidablePred p]
    {l : List α} : findFirst? p l = none ↔ ∀ x ∈ l, ¬ p x := by
  induction l with
  | nil => simp [findFirst?]
  | cons x xs ih =>
    by_cases hx : p x
    · simp [findFirst?, hx]
    · simp [findFirst?, hx, ih]

theorem mem_filterP {α : Type} {p : α → Prop} [DecidablePred p]
    {l : List α} {x : α} : x ∈ filterP p l ↔ x ∈ l ∧ p x := by
  induction l with
  | nil => simp [filterP]
  | cons y ys ih =>
    by_cases hy : p y
    · rw [filterP, if_pos hy]
      constructor
      · intro hx
        rcases List.mem_cons.mp hx with rfl | hm
        · exact ⟨List.mem_cons_self x ys, hy⟩
        · rcases ih.mp hm with ⟨hm', hp⟩
          exact ⟨List.mem_cons_of_mem y hm', hp⟩
      · rintro ⟨hx, hp⟩
        rcases List.mem_cons.mp hx with rfl | hm
        · exact List.mem_cons_self x (filterP p ys)
        · exact List.mem_cons_of_mem y (ih.mpr ⟨hm, hp⟩)
    · rw [filterP, if_neg hy]
      constructor
      · intro hx
        rcases ih.mp hx with ⟨hm, hp⟩
        exact ⟨List.mem_cons_of_mem y hm, hp⟩
      · rintro ⟨hx, hp⟩
        rcases List.mem_cons.mp hx with rfl | hm
        · exact absurd hp hy
        · exact ih.mpr ⟨hm, hp⟩

theorem filterP_sublist {α : Type} (p : α → Prop) [DecidablePred p]
    (l : List α) : List.Sublist (filterP p l) l := by
  induction l with
  | nil => simp [filterP]
  | cons y ys ih =>
    by_cases hy : p y
    · rw [filterP, if_pos hy]
      exact ih.cons₂ y
    · rw [filterP, if_neg hy]
      exact ih.cons y

theorem mem_replaceFirst {α : Type} {p : α → Prop} [DecidablePred p]
    {f : α → α} {l : List α} {x : α} (h : x ∈ replaceFirst p f l) :
    x ∈ l ∨ ∃ y ∈ l, p y ∧ x = f y := by
  induction l with
  | nil => simp [replaceFirst] at h
  | cons y ys ih =>
    by_cases hy : p y
    · rw [replaceFirst, if_pos hy] at h
      rcases List.mem_cons.mp h with rfl | hm
      · exact Or.inr ⟨y, List.mem_cons_self y ys, hy, rfl⟩
      · exact Or.inl (List.mem_cons_of_mem y hm)
    · rw [replaceFirst, if_neg hy] at h
      rcases List.mem_cons.mp h with rfl | hm
      · exact Or.inl (List.mem_cons_self x ys)
      · rcases ih hm with hm' | ⟨z, hz, hpz, rfl⟩
        · exact Or.inl (List.mem_cons_of_mem y hm')
        · exact Or.inr ⟨z, List.mem_cons_of_mem y hz, hpz, rfl⟩

theorem replaceFirst_mem_replaced {α : Type} {p : α → Prop} [DecidablePred p]
    (f : α → α) {l : List α} {e : α} (h : findFirst? p l = some e) :
    f e ∈ replaceFirst p f l := by
  induction l with
  | nil => simp [findFirst?] at h
  | cons y ys ih =>
    by_cases hy : p y
    · simp [findFirst?, hy] at h
      subst h
      rw [replaceFirst, if_pos hy]
      exact List.mem_cons_self _ _
    · simp [findFirst?, hy] at h
      rw [replaceFirst, if_neg hy]
      exact List.mem_cons_of_mem y (ih h)

theorem dedupByMaterial_sublist (l : List RepetitionSchedule) (seen : List Int) :
    List.Sublist (dedupByMaterial l seen) l := by
  induction l generalizing seen with
  | nil => simp [dedupByMaterial]
  | cons r rest ih =>
    by_cases hr : r.material_id ∈ seen
    · rw [dedupByMaterial, if_pos hr]
      exact (ih seen).cons r
    · rw [dedupByMaterial, if_neg hr]
      exact (ih (r.material_id :: seen)).cons₂ r

theorem dedupByMaterial_not_seen {l : List RepetitionSchedule} {seen : List Int} :
    ∀ x ∈ dedupByMaterial l seen, x.material_id ∉ seen := by
  induction l generalizing seen with
  | nil => simp [dedupByMaterial]
  | cons r rest ih =>
    intro x hx
    by_cases hr : r.material_id ∈ seen
    · rw [dedupByMaterial, if_pos hr] at hx
      exact ih x hx
    · rw [dedupByMaterial, if_neg hr] at hx
      rcases List.mem_cons.mp hx with rfl | hm
      · exact hr
      · intro hseen
        exact ih x hm (List.mem_cons_of_mem _ hseen)

theorem dedupByMaterial_nodup (l : List RepetitionSchedule) (seen : List Int) :
    ((dedupByMaterial l seen).map (fun s => s.material_id)).Nodup := by
  induction l generalizing seen with
  | nil => simp [dedupByMaterial]
  | cons r rest ih =>
    by_cases hr : r.material_id ∈ seen
    · rw [dedupByMaterial, if_pos hr]
      exact ih seen
    · rw [dedupByMaterial, if_neg hr]
      refine List.nodup_cons.mpr ⟨?_, ih (r.material_id :: seen)⟩
      intro hmem
      rcases List.mem_map.mp hmem with ⟨x, hx, hxe⟩
      exact dedupByMaterial_not_seen x hx (by rw [hxe]; exact List.mem_cons_self _ _)

theorem dedupByMaterial_covers {l : List RepetitionSchedule} {seen : List Int} :
    ∀ e ∈ l, e.material_id ∉ seen →
      ∃ x ∈ dedupByMaterial l seen, x.material_id = e.material_id := by
  induction l generalizing seen with
  | nil => simp
  | cons r rest ih =>
    intro e he hseen
    by_cases hr : r.material_id ∈ seen
    · rw [dedupByMaterial, if_pos hr]
      rcases List.mem_cons.mp he with rfl | hm
      · exact absurd hr hseen
      · exact ih e hm hseen
    · rw [dedupByMaterial, if_neg hr]
      rcases List.mem_cons.mp he with rfl | hm
      · exact ⟨e, List.mem_cons_self _ _, rfl⟩
      · by_cases hre : e.material_id = r.material_id
        · exact ⟨r, List.mem_cons_self _ _, hre.symm⟩
        · have hnotin : e.material_id ∉ r.material_id :: seen := by
            intro hc
            rcases List.mem_cons.mp hc with h | h
            · exact hre h
            · exact hseen h
          rcases ih e hm hnotin with ⟨x, hx, hxe⟩
          exact ⟨x, List.mem_cons_of_mem r hx, hxe⟩

theorem dedupByMaterial_keeps_first {l1 l2 : List RepetitionSchedule}
    {e : RepetitionSchedule} {seen : List Int} (hseen : e.material_id ∉ seen)
    (hfirst : ∀ y ∈ l1, y.material_id ≠ e.material_id) :
    e ∈ dedupByMaterial (l1 ++ e :: l2) seen := by
  induction l1 generalizing seen with
  | nil =>
    rw [List.nil_append, dedupByMaterial, if_neg hseen]
    exact List.mem_cons_self _ _
  | cons y ys ih =>
    have hy : y.material_id ≠ e.material_id := hfirst y (List.mem_cons_self _ _)
    have hrest : ∀ z ∈ ys, z.material_id ≠ e.material_id :=
      fun z hz => hfirst z (List.mem_cons_of_mem y hz)
    rw [List.cons_append, dedupByMaterial]
    by_cases hmem : y.material_id ∈ seen
    · rw [if_pos hmem]
      exact ih hseen hrest
    · rw [if_neg hmem]
      refine List.mem_cons_of_mem y (ih ?_ hrest)
      simp only [List.mem_cons]
      rintro (h | h)
      · exact hy h.symm
      · exact hseen h

/-- C7: for every store state and target date D, the due query returns
only incomplete stored entries that are due on D under the kind rules
(intraday kinds exactly on D, long-horizon kinds on or before D), sorted
by scheduled date then stage then creation time, with at most one entry
per material, covering every material that has a due entry, and keeping
precisely the first entry of each material in the sorted sequence. -/
theorem get_due_repetitions_characterization (st : Store) (D : Int) :
    (∀ e ∈ get_due_repetitions none D st, e ∈ st.schedules ∧ isDue D e) ∧
    List.Sorted dueOrder (get_due_repetitions none D st) ∧
    ((get_due_repetitions none D st).map (fun s => s.material_id)).Nodup ∧
    (∀ e ∈ st.schedules, isDue D e →
      ∃ x ∈ get_due_repetitions none D st, x.material_id = e.material_id) ∧
    (∀ l1 e l2,
      List.insertionSort dueOrder
          (filterP (fun s => isDue D s ∧ passes_user_filter none s) st.schedules)
        = l1 ++ e :: l2 →
      (∀ y ∈ l1, y.material_id ≠ e.material_id) →
      e ∈ get_due_repetitions none D st) := by
  simp only [get_due_repetitions]
  refine ⟨?_, ?_, dedupByMaterial_nodup _ _, ?_, ?_⟩
  · intro e he
    have he2 := (dedupByMaterial_sublist _ _).subset he
    rw [List.mem_insertionSort] at he2
    exact ⟨(mem_filterP.mp he2).1, (mem_filterP.mp he2).2.1⟩
  · exact List.Pairwise.sublist (dedupByMaterial_sublist _ _)
      (List.sorted_insertionSort dueOrder _)
  · intro e he hdue
    have hb : e ∈ filterP
        (fun s => isDue D s ∧ passes_user_filter none s) st.schedules :=
      mem_filterP.mpr ⟨he, hdue, trivial⟩
    have hs : e ∈ List.insertionSort dueOrder (filterP
        (fun s => isDue D s ∧ passes_user_filter none s) st.schedules) := by
      rw [List.mem_insertionSort]
      exact hb
    exact dedupByMaterial_covers e hs (by simp)
  · intro l1 e l2 hrw hfirst
    rw [hrw]
    exact dedupByMaterial_keeps_first (by simp) hfirst

/-- A concrete store exercising the due query: two incomplete entries of
the same material and one completed entry. -/
def dueWitnessStore : Store :=
  { schedules :=
      [⟨1, 10, 100, 5, "day_1", 3, ⟨5, 420⟩, false, none, ⟨0, 0⟩⟩,
       ⟨2, 10, 100, 4, "day_3", 4, ⟨4, 420⟩, false, none, ⟨1, 0⟩⟩,
       ⟨3, 11, 100, 5, "evening", 2, ⟨5, 1200⟩, true, some ⟨5, 1250⟩, ⟨2, 0⟩⟩],
    results := [], materials := [], stats := [], next_id := 4 }

/-- Witness for C7: the dedup guarantee evaluated on the concrete store. -/
theorem get_due_repetitions_characterization_witness :
    ((get_due_repetitions none 5 dueWitnessStore).map
      (fun s => s.material_id)).Nodup :=
  (get_due_repetitions_characterization dueWitnessStore 5).2.2.1

/-- The statistics updater touches only the statistics table and commits
exactly once. -/
theorem update_user_statistics_fields (today u a s f : Int) (st : Store) :
    (update_user_statistics today u a s f st).1.schedules = st.schedules ∧
    (update_user_statistics today u a s f st).1.results = st.results ∧
    (update_user_statistics today u a s f st).1.materials = st.materials ∧
    (update_user_statistics today u a s f st).1.next_id = st.next_id ∧
    (update_user_statistics today u a s f st).2
      = [(update_user_statistics today u a s f st).1] := by
  simp only [update_user_statistics]
  split <;> simp

/-- Folding the statistics updater over a row list touches only the
statistics table. -/
theorem foldl_update_stats_fields (today : Int) (l : List RepetitionSchedule)
    (st : Store) :
    (l.foldl (fun acc s => (update_user_statistics today s.user_id 0 0 1 acc).1)
        st).schedules = st.schedules ∧
    (l.foldl (fun acc s => (update_user_statistics today s.user_id 0 0 1 acc).1)
        st).results = st.results ∧
    (l.foldl (fun acc s => (update_user_statistics today s.user_id 0 0 1 acc).1)
        st).materials = st.materials ∧
    (l.foldl (fun acc s => (update_user_statistics today s.user_id 0 0 1 acc).1)
        st).next_id = st.next_id := by
  induction l generalizing st with
  | nil => exact ⟨rfl, rfl, rfl, rfl⟩
  | cons x xs ih =>
    simp only [List.foldl_cons]
    have h := update_user_statistics_fields today x.user_id 0 0 1 st
    have h2 := ih ((update_user_statistics today x.user_id 0 0 1 st).1)
    exact ⟨h2.1.trans h.1, h2.2.1.trans h.2.1, h2.2.2.1.trans h.2.2.1,
      h2.2.2.2.trans h.2.2.2.1⟩

/-- C8: the sweeper returns the number of incomplete intraday entries
scheduled before today, marks exactly those entries completed, writes one
failed result row per such entry, creates no schedule entry (the table
keeps its length), and leaves long-horizon entries and entries scheduled
today or later untouched. -/
theorem sweep_expired_intraday_resolves (now : LocalDT) (today : Int) (st : Store) :
    (auto_complete_expired_intraday_repetitions now today st).1
      = (filterP (is_expired_intraday today) st.schedules).length ∧
    (auto_complete_expired_intraday_repetitions now today st).2.schedules.length
      = st.schedules.length ∧
    (∀ i : Nat, ∀ s0 : RepetitionSchedule, st.schedules[i]? = some s0 →
      (is_expired_intraday today s0 →
        (auto_complete_expired_intraday_repetitions now today st).2.schedules[i]?
          = some { s0 with is_completed := true, completed_at := some now }) ∧
      (¬ is_expired_intraday today s0 →
        (auto_complete_expired_intraday_repetitions now today st).2.schedules[i]?
          = some s0)) ∧
    (auto_complete_expired_intraday_repetitions now today st).2.results
      = st.results ++ (filterP (is_expired_intraday today) st.schedules).map
          (fun s => ⟨s.id, s.user_id, s.material_id, false, now⟩) ∧
    (∀ q ∈ (auto_complete_expired_intraday_repetitions now today st).2.results,
      q ∉ st.results → q.was_successful = false) := by
  have hfold := foldl_update_stats_fields today
    (filterP (is_expired_intraday today) st.schedules)
    { st with
      schedules := st.schedules.map (fun s =>
        if is_expired_intraday today s then
          { s with is_completed := true, completed_at := some now }
        else s),
      results := st.results ++ (filterP (is_expired_intraday today)
        st.schedules).map (fun s => ⟨s.id, s.user_id, s.material_id, false, now⟩) }
  have hsched : (auto_complete_expired_intraday_repetitions now today st).2.schedules
      = st.schedules.map (fun s =>
          if is_expired_intraday today s then
            { s with is_completed := true, completed_at := some now }
          else s) := hfold.1
  have hres : (auto_complete_expired_intraday_repetitions now today st).2.results
      = st.results ++ (filterP (is_expired_intraday today) st.schedules).map
          (fun s => ⟨s.id, s.user_id, s.material_id, false, now⟩) := hfold.2.1
  refine ⟨rfl, ?_, ?_, hres, ?_⟩
  · rw [hsched, List.length_map]
  · intro i s0 hsome
    constructor
    · intro hexp
      rw [hsched, List.getElem?_map, hsome]
      simp [hexp]
    · intro hexp
      rw [hsched, List.getElem?_map, hsome]
      simp [hexp]
  · intro q hq hqn
    rw [hres] at hq
    rcases List.mem_append.mp hq with h | h
    · exact absurd h hqn
    · rcases List.mem_map.mp h with ⟨x, hx, hxe⟩
      rw [← hxe]

/-- A concrete store exercising the sweeper: one expired intraday entry,
one current intraday entry and one expired long-horizon entry. -/
def sweepWitnessStore : Store :=
  { schedules :=
      [⟨1, 10, 100, 8, "evening", 2, ⟨8, 1200⟩, false, none, ⟨8, 0⟩⟩,
       ⟨2, 11, 100, 10, "immediate", 0, ⟨10, 600⟩, false, none, ⟨10, 0⟩⟩,
       ⟨3, 12, 100, 7, "day_7", 5, ⟨7, 420⟩, false, none, ⟨0, 0⟩⟩],
    results := [], materials := [], stats := [], next_id := 4 }

/-- Witness for C8: the count evaluated on the concrete store. -/
theorem sweep_expired_intraday_resolves_witness :
    (auto_complete_expired_intraday_repetitions ⟨10, 700⟩ 10 sweepWitnessStore).1
      = (filterP (is_expired_intraday 10) sweepWitnessStore.schedules).length :=
  (sweep_expired_intraday_resolves ⟨10, 700⟩ 10 sweepWitnessStore).1

/-- C9: one call creates exactly three entries, at stages 0, 1, 2 with
kinds immediate, short_term, evening, due respectively at the creation
instant, at the instant the calculator yields for stage 0 and at the
instant it yields for stage 1; the pre-existing incomplete entries of the
material are deleted first, and none of the created entries has a
long-horizon kind. -/
theorem create_initial_repetitions_three (now mca : LocalDT) (mid uid : Int)
    (st : Store) :
    ((create_initial_repetitions now mid uid mca st).1).length = 3 ∧
    ((create_initial_repetitions now mid uid mca st).1).map
        (fun s => (s.current_stage, s.repetition_type))
      = [(0, "immediate"), (1, "short_term"), (2, "evening")] ∧
    ((create_initial_repetitions now mid uid mca st).1).map
        (fun s => s.scheduled_datetime)
      = [mca, (calculate_next_repetition mca 0 none).1,
         (calculate_next_repetition mca 1 none).1] ∧
    (create_initial_repetitions now mid uid mca st).2.1.schedules
      = filterP (fun s => ¬ incompleteFor uid mid s) st.schedules
          ++ (create_initial_repetitions now mid uid mca st).1 ∧
    (∀ s ∈ (create_initial_repetitions now mid uid mca st).1,
      s.material_id = mid ∧ s.user_id = uid ∧ s.is_completed = false ∧
        s.repetition_type ∉ long_horizon_types) := by
  refine ⟨rfl, rfl, rfl, rfl, ?_⟩
  intro s hs
  simp only [create_initial_repetitions, List.mem_cons,
    List.not_mem_nil, or_false] at hs
  rcases hs with rfl | rfl | rfl
  · refine ⟨rfl, rfl, rfl, ?_⟩
    show ("immediate" : String) ∉ long_horizon_types
    decide
  · refine ⟨rfl, rfl, rfl, ?_⟩
    show ("short_term" : String) ∉ long_horizon_types
    decide
  · refine ⟨rfl, rfl, rfl, ?_⟩
    show ("evening" : String) ∉ long_horizon_types
    decide

/-- After the completion UPDATE, no row of the schedule table still
matches the pending select for that id and owner, provided row ids are
unique. -/
theorem no_pending_after_mark (sid uid : Int) (now : LocalDT)
    (l : List RepetitionSchedule)
    (hnd : (l.map (fun s => s.id)).Nodup) :
    ∀ x ∈ replaceFirst (matchesPending sid uid)
        (fun s => { s with is_completed := true, completed_at := some now }) l,
      ¬ matchesPending sid uid x := by
  induction l with
  | nil => simp [replaceFirst]
  | cons y ys ih =>
    rw [List.map_cons, List.nodup_cons] at hnd
    by_cases hy : matchesPending sid uid y
    · rw [replaceFirst, if_pos hy]
      intro x hx
      rcases List.mem_cons.mp hx with rfl | hm
      · intro hc
        simp [matchesPending] at hc
      · intro hc
        exact hnd.1 (List.mem_map.mpr ⟨x, hm, hc.1.trans hy.1.symm⟩)
    · rw [replaceFirst, if_neg hy]
      intro x hx
      rcases List.mem_cons.mp hx with rfl | hm
      · exact hy
      · exact ih hnd.2 x hm

/-- Projection forms of the statistics updater facts, convenient for
rewriting. -/
theorem update_user_statistics_schedules (today u a s f : Int) (st : Store) :
    (update_user_statistics today u a s f st).1.schedules = st.schedules :=
  (update_user_statistics_fields today u a s f st).1

theorem update_user_statistics_results (today u a s f : Int) (st : Store) :
    (update_user_statistics today u a s f st).1.results = st.results :=
  (update_user_statistics_fields today u a s f st).2.1

theorem update_user_statistics_materials (today u a s f : Int) (st : Store) :
    (update_user_statistics today u a s f st).1.materials = st.materials :=
  (update_user_statistics_fields today u a s f st).2.2.1

theorem update_user_statistics_next_id (today u a s f : Int) (st : Store) :
    (update_user_statistics today u a s f st).1.next_id = st.next_id :=
  (update_user_statistics_fields today u a s f st).2.2.2.1

theorem update_user_statistics_trace (today u a s f : Int) (st : Store) :
    (update_user_statistics today u a s f st).2
      = [(update_user_statistics today u a s f st).1] :=
  (update_user_statistics_fields today u a s f st).2.2.2.2

/-- When the pending entry and its material both exist, a completion call
reports success and leaves as incomplete rows for that material exactly
one freshly inserted follow-up entry, the rest of the table being the
marked rows that survive the delete. -/
theorem complete_repetition_found_shape (now : LocalDT) (today sid uid : Int)
    (b : Bool) (st : Store) (e : RepetitionSchedule) (mat : StudyMaterial)
    (h1 : findFirst? (matchesPending sid uid) st.schedules = some e)
    (h2 : findFirst? (fun m => m.id = e.material_id) st.materials = some mat) :
    (complete_repetition now today sid uid b st).1 = true ∧
    ∃ ns : RepetitionSchedule, ns.id = st.next_id ∧
      (complete_repetition now today sid uid b st).2.1.schedules
        = filterP (fun s => ¬ incompleteFor e.user_id e.material_id s)
            (replaceFirst (matchesPending sid uid)
              (fun s => { s with is_completed := true, completed_at := some now })
              st.schedules) ++ [ns] := by
  cases b
  case true =>
    simp only [complete_repetition, h1, if_true]
    simp only [create_next_repetition_on_success, update_user_statistics_schedules,
      update_user_statistics_materials, update_user_statistics_next_id,
      update_user_statistics_results, h2]
    exact ⟨trivial, _, rfl, rfl⟩
  case false =>
    simp only [complete_repetition, h1, if_false, Bool.false_eq_true]
    simp only [mark_failed, update_user_statistics_schedules,
      update_user_statistics_materials, update_user_statistics_next_id,
      update_user_statistics_results, h2]
    exact ⟨trivial, _, rfl, rfl⟩

/-- C6: completing an already completed, missing or foreign entry is a
no-op reporting failure: when the pending select finds no row the call
returns False, leaves the store untouched and commits nothing; and after
a first completion of an entry succeeded, repeating the call for the same
entry returns failure and leaves exactly the state the first call
produced, creating no second follow-up entry. -/
theorem complete_repetition_noop_idempotent (now now2 : LocalDT)
    (today today2 sid uid : Int) (b b2 : Bool) (st : Store) :
    (findFirst? (matchesPending sid uid) st.schedules = none →
      complete_repetition now today sid uid b st = (false, st, [])) ∧
    (∀ e : RepetitionSchedule, ∀ mat : StudyMaterial,
      (st.schedules.map (fun s => s.id)).Nodup →
      (∀ s ∈ st.schedules, s.id ≠ st.next_id) →
      findFirst? (matchesPending sid uid) st.schedules = some e →
      findFirst? (fun m => m.id = e.material_id) st.materials = some mat →
      complete_repetition now2 today2 sid uid b2
          (complete_repetition now today sid uid b st).2.1
        = (false, (complete_repetition now today sid uid b st).2.1, [])) := by
  constructor
  · intro hnone
    simp only [complete_repetition, hnone]
  · intro e mat hnd hfresh h1 h2
    obtain ⟨heMem, heP⟩ := findFirst?_eq_some h1
    obtain ⟨hTrue, ns, hnsid, hsched⟩ :=
      complete_repetition_found_shape now today sid uid b st e mat h1 h2
    have hnone2 : findFirst? (matchesPending sid uid)
        (complete_repetition now today sid uid b st).2.1.schedules = none := by
      rw [findFirst?_eq_none, hsched]
      intro x hx
      rcases List.mem_append.mp hx with hx1 | hx2
      · exact no_pending_after_mark sid uid now st.schedules hnd x
          (mem_filterP.mp hx1).1
      · rcases List.mem_singleton.mp hx2 with rfl
        intro hc
        exact hfresh e heMem (heP.1.trans (hc.1.symm.trans hnsid))
    generalize hgen : (complete_repetition now today sid uid b st).2.1 = stAfter
      at hnone2 ⊢
    simp only [complete_repetition, hnone2]

/-- A concrete store with one pending entry and its material. -/
def noopWitnessStore : Store :=
  { schedules := [⟨1, 10, 100, 3, "day_1", 3, ⟨3, 420⟩, false, none, ⟨0, 0⟩⟩],
    results := [], materials := [⟨10, 100, ⟨0, 600⟩, 3, none⟩], stats := [],
    next_id := 2 }

/-- Witness for C6: the second completion of the same entry is rejected
and changes nothing. -/
theorem complete_repetition_noop_idempotent_witness :
    complete_repetition ⟨4, 0⟩ 4 1 100 false
        (complete_repetition ⟨3, 500⟩ 3 1 100 true noopWitnessStore).2.1
      = (false, (complete_repetition ⟨3, 500⟩ 3 1 100 true noopWitnessStore).2.1,
         []) :=
  (complete_repetition_noop_idempotent ⟨3, 500⟩ ⟨4, 0⟩ 3 4 1 100 true false
      noopWitnessStore).2
    ⟨1, 10, 100, 3, "day_1", 3, ⟨3, 420⟩, false, none, ⟨0, 0⟩⟩
    ⟨10, 100, ⟨0, 600⟩, 3, none⟩
    (by decide) (by decide) (by decide) (by decide)

/-- A concrete store with one pending stage 4 entry and its material,
used to examine the transaction boundaries of a completion. -/
def atomWitnessStore : Store :=
  { schedules := [⟨1, 10, 100, 5, "day_3", 4, ⟨5, 420⟩, false, none, ⟨0, 0⟩⟩],
    results := [], materials := [⟨10, 100, ⟨0, 600⟩, 4, none⟩], stats := [],
    next_id := 2 }

/-- C4 counterexample: on a concrete store, the success completion call
persists a committed state in which the entry is already completed but no
incomplete follow-up entry for its material exists yet, so the five side
effects are not applied as one atomic unit. -/
theorem complete_repetition_not_atomic :
    ∃ c ∈ (complete_repetition ⟨5, 600⟩ 5 1 100 true atomWitnessStore).2.2,
      (∃ s ∈ c.schedules, s.id = 1 ∧ s.is_completed = true) ∧
      ¬ ∃ s ∈ c.schedules, s.material_id = 10 ∧ s.is_completed = false := by
  decide

/-- C4 amended: the success completion call persists its effects in two
transactions rather than one.  Its commit trace has three entries (the
statistics commit, the explicit commit of the same state, and the
follow-up commit); the last committed state is the final store and
carries every effect: the result row, the entry marked completed, a
single fresh incomplete follow-up entry for the material computed by the
calculator, and the material updated; while the first committed state
already has the entry completed and the result row but not yet the
follow-up entry. -/
theorem complete_repetition_two_phase (now : LocalDT) (today sid uid : Int)
    (st : Store) (e : RepetitionSchedule) (mat : StudyMaterial)
    (h1 : findFirst? (matchesPending sid uid) st.schedules = some e)
    (h2 : findFirst? (fun m => m.id = e.material_id) st.materials = some mat)
    (hfresh : ∀ s ∈ st.schedules, s.id ≠ st.next_id) :
    (complete_repetition now today sid uid true st).1 = true ∧
    (complete_repetition now today sid uid true st).2.2.length = 3 ∧
    (complete_repetition now today sid uid true st).2.2.getLast?
      = some (complete_repetition now today sid uid true st).2.1 ∧
    ((⟨sid, uid, e.material_id, true, now⟩ : RepetitionResult)
      ∈ (complete_repetition now today sid uid true st).2.1.results) ∧
    (∃ s ∈ (complete_repetition now today sid uid true st).2.1.schedules,
      s.id = sid ∧ s.is_completed = true) ∧
    (∃ ns ∈ (complete_repetition now today sid uid true st).2.1.schedules,
      ns.id = st.next_id ∧ ns.material_id = e.material_id ∧
      ns.user_id = e.user_id ∧ ns.is_completed = false ∧
      ns.current_stage
        = (calculate_next_repetition mat.created_at e.current_stage (some now)).2 ∧
      ns.scheduled_datetime
        = (calculate_next_repetition mat.created_at e.current_stage (some now)).1 ∧
      (∀ s ∈ (complete_repetition now today sid uid true st).2.1.schedules,
        s.user_id = e.user_id → s.material_id = e.material_id →
          s.is_completed = false → s = ns)) ∧
    (∃ m ∈ (complete_repetition now today sid uid true st).2.1.materials,
      m.id = mat.id ∧ m.current_stage = e.current_stage + 1 ∧
      m.last_success_at = some now) ∧
    (∃ c ∈ (complete_repetition now today sid uid true st).2.2,
      (∃ s ∈ c.schedules, s.id = sid ∧ s.is_completed = true) ∧
      ((⟨sid, uid, e.material_id, true, now⟩ : RepetitionResult) ∈ c.results) ∧
      (∀ s ∈ c.schedules, s.id ≠ st.next_id)) := by
  obtain ⟨heMem, heP⟩ := findFirst?_eq_some h1
  obtain ⟨hmMem, hmP⟩ := findFirst?_eq_some h2
  simp only [complete_repetition, h1, if_true]
  simp only [create_next_repetition_on_success, update_user_statistics_schedules,
    update_user_statistics_materials, update_user_statistics_next_id,
    update_user_statistics_results, update_user_statistics_trace, h2]
  refine ⟨trivial, rfl, rfl, by simp, ?_, ?_, ?_, ?_⟩
  · refine ⟨{ e with is_completed := true, completed_at := some now },
      List.mem_append.mpr (Or.inl ?_), heP.1, rfl⟩
    refine mem_filterP.mpr ⟨replaceFirst_mem_replaced _ h1, ?_⟩
    intro hc
    simp [incompleteFor] at hc
  · refine ⟨_, List.mem_append.mpr (Or.inr (List.mem_singleton.mpr rfl)),
      rfl, rfl, rfl, rfl, rfl, rfl, ?_⟩
    intro s hs hsu hsm hsc
    rcases List.mem_append.mp hs with hs1 | hs2
    · exact absurd ⟨hsu, hsm, hsc⟩ (mem_filterP.mp hs1).2
    · exact List.mem_singleton.mp hs2
  · exact ⟨{ mat with last_success_at := some now, current_stage := e.current_stage + 1 },
      replaceFirst_mem_replaced _ h2, rfl, rfl, rfl⟩
  · refine ⟨_, List.mem_append.mpr (Or.inl (List.mem_append.mpr
        (Or.inl (List.mem_singleton.mpr rfl)))), ?_, ?_, ?_⟩
    · simp only [update_user_statistics_schedules]
      exact ⟨{ e with is_completed := true, completed_at := some now },
        replaceFirst_mem_replaced _ h1, heP.1, rfl⟩
    · simp only [update_user_statistics_results]
      simp
    · intro s hs
      simp only [update_user_statistics_schedules] at hs
      rcases mem_replaceFirst hs with hmem | ⟨y, hy, hpy, rfl⟩
      · exact hfresh s hmem
      · exact hfresh y hy

/-- Witness for the amended C4 on the concrete store: success is
reported and the trace has exactly three commits. -/
theorem complete_repetition_two_phase_witness :
    (complete_repetition ⟨5, 600⟩ 5 1 100 true atomWitnessStore).1 = true ∧
    (complete_repetition ⟨5, 600⟩ 5 1 100 true atomWitnessStore).2.2.length = 3 :=
  have h := complete_repetition_two_phase ⟨5, 600⟩ 5 1 100 atomWitnessStore
    ⟨1, 10, 100, 5, "day_3", 4, ⟨5, 420⟩, false, none, ⟨0, 0⟩⟩
    ⟨10, 100, ⟨0, 600⟩, 4, none⟩
    (by decide) (by decide) (by decide)
  ⟨h.1, h.2.1⟩

/-- A concrete store whose material and single incomplete entry are both
at the terminal stage 8. -/
def stage8WitnessStore : Store :=
  { schedules := [⟨1, 10, 100, 50, "monthly", 8, ⟨50, 420⟩, false, none, ⟨0, 0⟩⟩],
    results := [], materials := [⟨10, 100, ⟨0, 600⟩, 8, none⟩], stats := [],
    next_id := 2 }

/-- C5: evaluating the success path at a stage 8 material exhibits the
divergence of the code from the documented invariant: the material stage
is bumped without clamping to 9 while the freshly created single
incomplete entry keeps the clamped stage 8, so the two disagree. -/
theorem material_stage_diverges_from_entry_stage :
    (∃ m ∈ (complete_repetition ⟨80, 600⟩ 80 1 100 true
        stage8WitnessStore).2.1.materials, m.id = 10 ∧ m.current_stage = 9) ∧
    (∃ s ∈ (complete_repetition ⟨80, 600⟩ 80 1 100 true
        stage8WitnessStore).2.1.schedules,
      s.is_completed = false ∧ s.material_id = 10 ∧ s.current_stage = 8) ∧
    (∀ s ∈ (complete_repetition ⟨80, 600⟩ 80 1 100 true
        stage8WitnessStore).2.1.schedules,
      s.is_completed = false → s.current_stage ≠ 9) := by
  decide

/-- An empty concrete store for exercising initial schedule creation. -/
def initWitnessStore : Store :=
  { schedules := [], results := [], materials := [], stats := [], next_id := 1 }

/-- Witness for C9: exactly three entries are created on the empty
store. -/
theorem create_initial_repetitions_three_witness :
    ((create_initial_repetitions ⟨0, 615⟩ 10 100 ⟨0, 600⟩ initWitnessStore).1).length
      = 3 :=
  (create_initial_repetitions_three ⟨0, 615⟩ ⟨0, 600⟩ 10 100 initWitnessStore).1
